import Mathlib
/-!
Shallow embedding of the cloudflare-pages-cleanup selection engine and run
orchestrator (src/select.ts, src/index.ts, src/cloudflare.ts, src/types.ts),
with theorems checking the natural-language specification against the code.

Modelling conventions:
* `created_on` is an ISO-8601 string in the source; every use of it goes
  through `Date.parse` (sorting, age comparison), so it is embedded directly
  as the parsed epoch-millisecond value (an `Int`).  Malformed timestamps
  (NaN) are outside the documented input domain.
* JavaScript's `Array.prototype.sort` is stable; the comparator
  `(a, b) => Date.parse(b.created_on) - Date.parse(a.created_on)` therefore
  yields the newest-first order with ties in original relative order, which
  is exactly a stable insertion sort with the relation
  `b.created_on ≤ a.created_on`.
* Optional fields become `Option`; JavaScript string truthiness
  (`if (activeProdId)`, `if (branch)`) is embedded as "present and distinct
  from the empty string".
* The orchestrator's I/O collaborators (the per-environment deployment
  listing and the delete call) are passed as explicit function parameters;
  a delete outcome is `none` for success and `some message` for a thrown
  error, mirroring the `try`/`catch` in index.ts.
-/
/-- Environment, from types.ts: `"production" | "preview"`. -/
inductive Environment where
  | production
  | preview
deriving DecidableEq
/-- The `deployment_trigger.metadata` object (only the field the engine reads). -/
structure TriggerMetadata where
  branch : Option String := none
deriving DecidableEq
/-- The `deployment_trigger` object. -/
structure DeploymentTrigger where
  metadata : Option TriggerMetadata := none
deriving DecidableEq
/-- The `latest_stage` object (read only by the active-production heuristic's
documented contract). -/
structure LatestStage where
  status : Option String := none
deriving DecidableEq
/-- Deployment record, from types.ts (fields the logic reads).
`created_on` is the `Date.parse` value of the ISO timestamp. -/
structure Deployment where
  id : String
  created_on : Int
  environment : Environment
  aliases : Option (List String) := none
  deployment_trigger : Option DeploymentTrigger := none
  latest_stage : Option LatestStage := none
deriving DecidableEq
/-- Output bucket of the selection engine, from types.ts. -/
structure SelectionBucket where
  keptIds : List String := []
  deletedIds : List String := []
  skippedProtectedIds : List String := []
  skippedUndeletableIds : List String := []
deriving DecidableEq
/-- cloudflare.ts `hasAliases`: `Array.isArray(d.aliases) && d.aliases.length > 0`. -/
def hasAliases (d : Deployment) : Bool :=
  match d.aliases with
  | some l => decide (0 < l.length)
  | none => false
/-- select.ts `isProtected` (closure inside `selectForEnvironment`):
`(env === "production" && activeProdId && d.id === activeProdId) || (aliases nonempty)`.
The bare `activeProdId &&` is JavaScript truthiness: present and non-empty. -/
def isProtected (env : Environment) (activeProdId : Option String)
    (d : Deployment) : Bool :=
  (decide (env = Environment.production) &&
    (match activeProdId with
     | some p => !(decide (p = "")) && decide (d.id = p)
     | none => false))
  || hasAliases d
/-- select.ts age-threshold check for a candidate:
`olderThanMs !== undefined && createdMs > olderThanMs` means the candidate is
kept (not deleted). -/
def ageKeep (olderThanMs : Option Int) (d : Deployment) : Bool :=
  match olderThanMs with
  | some cutoff => decide (cutoff < d.created_on)
  | none => false
/-- The optional chain `d.deployment_trigger?.metadata?.branch`. -/
def branchOf (d : Deployment) : Option String :=
  match d.deployment_trigger with
  | some t =>
    match t.metadata with
    | some m => m.branch
    | none => none
  | none => none
/-- select.ts newest-per-branch undeletable check for a candidate in the
`preview` environment: `if (branch)` (truthy, so non-empty) and the first
record of the sorted list carrying the same branch is the record itself. -/
def branchKeep (env : Environment) (sorted : List Deployment)
    (d : Deployment) : Bool :=
  decide (env = Environment.preview) &&
  (match branchOf d with
   | some b =>
     !(decide (b = "")) &&
     (match sorted.find? (fun x => decide (branchOf x = some b)) with
      | some newest => decide (newest.id = d.id)
      | none => false)
   | none => false)
/-- Comparator order of select.ts line 81: newest first (ties stable). -/
def newerOrSame (a b : Deployment) : Prop :=
  b.created_on ≤ a.created_on
instance : DecidableRel newerOrSame := fun a b =>
  inferInstanceAs (Decidable (b.created_on ≤ a.created_on))
instance : IsTotal Deployment newerOrSame :=
  ⟨fun a b => le_total b.created_on a.created_on⟩
instance : IsTrans Deployment newerOrSame :=
  ⟨fun _ _ _ hab hbc => le_trans hbc hab⟩
/-- The stable newest-first sort of select.ts
(`filtered.sort((a, b) => Date.parse(b.created_on) - Date.parse(a.created_on))`). -/
def sortNewestFirst (l : List Deployment) : List Deployment :=
  List.insertionSort newerOrSame l
/-- The scan loop of `selectForEnvironment` (select.ts lines 106-147), one
record at a time over the sorted list, with the `continue`-chain:
protection, auto-keep window, then candidate (considered) with age check,
preview branch-latest check, and finally deletion.  Ids are emitted in scan
order. -/
def selectLoop (env : Environment) (activeProdId : Option String)
    (autoKeepIds : List String) (olderThanMs : Option Int)
    (sorted : List Deployment) : List Deployment → SelectionBucket × Nat
  | [] => ({}, 0)
  | d :: rest =>
    let r := selectLoop env activeProdId autoKeepIds olderThanMs sorted rest
    if isProtected env activeProdId d then
      ({ r.1 with skippedProtectedIds := d.id :: r.1.skippedProtectedIds,
                  keptIds := d.id :: r.1.keptIds }, r.2)
    else if d.id ∈ autoKeepIds then
      ({ r.1 with keptIds := d.id :: r.1.keptIds }, r.2)
    else if ageKeep olderThanMs d then
      ({ r.1 with keptIds := d.id :: r.1.keptIds }, r.2 + 1)
    else if branchKeep env sorted d then
      ({ r.1 with skippedUndeletableIds := d.id :: r.1.skippedUndeletableIds,
                  keptIds := d.id :: r.1.keptIds }, r.2 + 1)
    else
      ({ r.1 with deletedIds := d.id :: r.1.deletedIds }, r.2 + 1)
/-- select.ts `selectForEnvironment`: filter to the environment, sort newest
first, compute `keepCut = max(maxToKeep, minToKeep)`, auto-keep the newest
`keepCut` ids, then scan.  Returns the bucket and `consideredCount`. -/
def selectForEnvironment (env : Environment) (deployments : List Deployment)
    (activeProdId : Option String) (minToKeep maxToKeep : Nat)
    (olderThanMs : Option Int) : SelectionBucket × Nat :=
  let filtered := deployments.filter (fun d => decide (d.environment = env))
  let sorted := sortNewestFirst filtered
  let keepCut := max maxToKeep minToKeep
  let autoKeepIds := (sorted.take keepCut).map (fun d => d.id)
  selectLoop env activeProdId autoKeepIds olderThanMs sorted sorted
/-- cloudflare.ts `detectActiveProduction`: filter to production, sort newest
first, return the first id (the absolute newest production deployment). -/
def detectActiveProduction (deployments : List Deployment) : Option String :=
  let prod := deployments.filter
    (fun d => decide (d.environment = Environment.production))
  let sorted := sortNewestFirst prod
  sorted.head?.map (fun d => d.id)
/-- A record reaching the candidate stage of the scan: neither protected nor
inside the auto-keep window.  `consideredCount` counts exactly these. -/
def candPred (env : Environment) (activeProdId : Option String)
    (autoKeepIds : List String) (d : Deployment) : Bool :=
  !(isProtected env activeProdId d) && !(decide (d.id ∈ autoKeepIds))
/-- A record the scan sends to `deletedIds`: a candidate exempted neither by
the age threshold nor by the preview newest-per-branch rule. -/
def deletePred (env : Environment) (activeProdId : Option String)
    (autoKeepIds : List String) (olderThanMs : Option Int)
    (sorted : List Deployment) (d : Deployment) : Bool :=
  candPred env activeProdId autoKeepIds d && !(ageKeep olderThanMs d) &&
    !(branchKeep env sorted d)
/-- A record the scan sends to `skippedUndeletableIds`: a candidate not
age-exempt that is the newest of its branch in the preview environment. -/
def undelPred (env : Environment) (activeProdId : Option String)
    (autoKeepIds : List String) (olderThanMs : Option Int)
    (sorted : List Deployment) (d : Deployment) : Bool :=
  candPred env activeProdId autoKeepIds d && !(ageKeep olderThanMs d) &&
    branchKeep env sorted d
/-- The env-filtered input list of select.ts line 79. -/
def envFiltered (env : Environment) (deployments : List Deployment) :
    List Deployment :=
  deployments.filter (fun d => decide (d.environment = env))
/-- The sorted (newest-first) env-filtered list the scan walks over. -/
def sortedEnv (env : Environment) (deployments : List Deployment) :
    List Deployment :=
  sortNewestFirst (envFiltered env deployments)
/-- The ids of the auto-keep window: the newest `keepCut = max(max, min)`
records of the sorted list (select.ts line 102). -/
def windowIds (env : Environment) (deployments : List Deployment)
    (minToKeep maxToKeep : Nat) : List String :=
  ((sortedEnv env deployments).take (max maxToKeep minToKeep)).map
    (fun d => d.id)
/-- Sample production record used in concrete witnesses. -/
def prodDep (i : String) (t : Int) : Deployment :=
  { id := i, created_on := t, environment := Environment.production }
/-- Sample preview record (optionally with a branch) used in witnesses. -/
def prevDep (i : String) (t : Int) (b : Option String) : Deployment :=
  { id := i, created_on := t, environment := Environment.preview,
    deployment_trigger := some { metadata := some { branch := b } } }
/-- Environment selector, from types.ts: `"all" | Environment`. -/
inductive EnvSelector where
  | all
  | production
  | preview
deriving DecidableEq
/-- Validated action inputs, from types.ts `Inputs` (the fields the run loop
reads; `olderThanMs` is the cutoff the orchestrator precomputes from
`olderThanDays` and the wall clock before the per-environment loop). -/
structure Inputs where
  environment : EnvSelector
  minToKeep : Nat
  maxToKeep : Nat
  olderThanMs : Option Int := none
  dryRun : Bool
  maxDeletesPerRun : Nat
  failOnError : Bool
deriving DecidableEq
def isAsciiDigit (c : Char) : Bool :=
  decide ('0' ≤ c) && decide (c ≤ '9')
def digitVal (c : Char) : Nat :=
  c.toNat - '0'.toNat
/-- Scan for the first `(ddd)` occurrence, as the regex
`/\((\d{3})\)/` of index.ts line 193 does; `0` when there is none
(`Number(...) || 0`). -/
def statusScan : List Char → Nat
  | '(' :: a :: b :: c :: ')' :: rest =>
    if isAsciiDigit a && isAsciiDigit b && isAsciiDigit c then
      100 * digitVal a + 10 * digitVal b + digitVal c
    else statusScan (a :: b :: c :: ')' :: rest)
  | _ :: rest => statusScan rest
  | [] => 0
/-- index.ts line 193:
`Number((message.match(/\((\d{3})\)/) || [])[1]) || 0`. -/
def parseStatusFromMessage (message : String) : Nat :=
  statusScan message.toList
/-- One entry of `Report.errors`, from types.ts. -/
structure DeletionError where
  deploymentId : String
  status : Nat
  message : String
  environment : Environment
deriving DecidableEq
/-- The deletion loop of index.ts lines 179-205: each id of `toDelete` is
attempted in order; a thrown error (`some message` from the outcome oracle)
is caught, converted to a `DeletionError` and recorded, and the loop
continues.  Returns the attempted ids (in order) and the recorded errors
(in order). -/
def deletionPhase (env : Environment) (deleteOutcome : String → Option String) :
    List String → List String × List DeletionError
  | [] => ([], [])
  | i :: rest =>
    let r := deletionPhase env deleteOutcome rest
    match deleteOutcome i with
    | none => (i :: r.1, r.2)
    | some msg =>
      (i :: r.1,
       { deploymentId := i, status := parseStatusFromMessage msg,
         message := msg, environment := env } :: r.2)
/-- The alias-merge fold of index.ts lines 161-169. -/
def mergeAliasLoop (protectedAliasIds : List String) :
    SelectionBucket → List Deployment → SelectionBucket
  | b, [] => b
  | b, d :: rest =>
    mergeAliasLoop protectedAliasIds
      (if decide (d.id ∈ protectedAliasIds) &&
          !(decide (d.id ∈ b.skippedProtectedIds)) then
        { b with
          skippedProtectedIds := b.skippedProtectedIds ++ [d.id],
          keptIds :=
            if decide (d.id ∈ b.keptIds) then b.keptIds
            else b.keptIds ++ [d.id] }
      else b) rest
/-- index.ts lines 144-169: merge the alias-protection flag into the
bucket's `skippedProtectedIds` (and `keptIds`) if not already present. -/
def mergeAliasProtection (deployments : List Deployment)
    (bucket : SelectionBucket) : SelectionBucket :=
  mergeAliasLoop ((deployments.filter hasAliases).map (fun d => d.id))
    bucket deployments
/-- index.ts lines 95-98: `all` expands to both environments. -/
def envsToProcess : EnvSelector → List Environment
  | EnvSelector.all => [Environment.production, Environment.preview]
  | EnvSelector.production => [Environment.production]
  | EnvSelector.preview => [Environment.preview]
/-- Result of processing one environment in the run loop. -/
structure EnvResult where
  bucket : SelectionBucket
  consideredCount : Nat
  toDelete : List String
  attempted : List String
  errors : List DeletionError
deriving DecidableEq
/-- The per-environment body of the run loop (index.ts lines 141-209):
selection, alias merge, truncation of the deleted set with
`slice(0, maxDeletesPerRun)` before any delete call, and the deletion
phase (skipped entirely in dry-run). -/
def processEnv (inputs : Inputs) (activeProdId : Option String)
    (deleteOutcome : Environment → String → Option String)
    (env : Environment) (deployments : List Deployment) : EnvResult :=
  let s := selectForEnvironment env deployments activeProdId
    inputs.minToKeep inputs.maxToKeep inputs.olderThanMs
  let bucket := mergeAliasProtection deployments s.1
  let toDelete := bucket.deletedIds.take inputs.maxDeletesPerRun
  let dres :=
    if inputs.dryRun then ([], [])
    else deletionPhase env (deleteOutcome env) toDelete
  { bucket := bucket, consideredCount := s.2, toDelete := toDelete,
    attempted := dres.1, errors := dres.2 }
/-- Outcome of a whole run (the parts of index.ts `run` with decision
logic: which deletions are attempted, which errors are recorded, and
whether the run finally fails). -/
structure RunResult where
  results : List (Environment × EnvResult)
  errors : List DeletionError
  attempted : List (Environment × String)
  failed : Bool
deriving DecidableEq
/-- index.ts `run` (lines 76-242), with the I/O collaborators passed in:
`deploymentsOf` stands for the per-environment `listDeployments` results,
`activeProdId` for the resolved active-production id, and `deleteOutcome`
for the `deleteDeployment` call (`none` success, `some message` thrown).
The run fails at the end iff at least one deletion error was recorded and
`failOnError` is set (lines 232-241). -/
def run (inputs : Inputs) (deploymentsOf : Environment → List Deployment)
    (activeProdId : Option String)
    (deleteOutcome : Environment → String → Option String) : RunResult :=
  let envs := envsToProcess inputs.environment
  let results := envs.map (fun e =>
    (e, processEnv inputs activeProdId deleteOutcome e (deploymentsOf e)))
  let errors := results.flatMap (fun p => p.2.errors)
  let attempted := results.flatMap (fun p =>
    p.2.attempted.map (fun i => (p.1, i)))
  { results := results, errors := errors, attempted := attempted,
    failed := decide (0 < errors.length) && inputs.failOnError }
/-- Concrete run configuration used by witnesses. -/
def sampleCfg : Inputs :=
  { environment := EnvSelector.production, minToKeep := 0, maxToKeep := 0,
    olderThanMs := none, dryRun := false, maxDeletesPerRun := 5,
    failOnError := true }
/-- Concrete delete-outcome oracle: deleting "b" throws. -/
def sampleOut (_ : Environment) (i : String) : Option String :=
  if i = "b" then some "boom (500) err" else none
/-- The creation instant attached to an id (via the unique record carrying
that id). -/
def createdOf (l : List Deployment) (s : String) : Int :=
  ((l.find? (fun d => decide (d.id = s))).map (fun d => d.created_on)).getD 0
/-- Concrete run configuration with a deletion cap of 1. -/
def sampleCfgCap1 : Inputs :=
  { environment := EnvSelector.production, minToKeep := 0, maxToKeep := 0,
    olderThanMs := none, dryRun := false, maxDeletesPerRun := 1,
    failOnError := true }
example :
    (selectForEnvironment Environment.production
      [⟨"a", 3, Environment.production, none, none, none⟩,
       ⟨"b", 2, Environment.production, none, none, none⟩,
       ⟨"c", 1, Environment.production, none, none, none⟩]
      none 0 1 none).1.deletedIds = ["b", "c"] := by decide
example :
    (selectForEnvironment Environment.production
      [⟨"a", 3, Environment.production, none, none, none⟩,
       ⟨"b", 2, Environment.production, none, none, none⟩]
      none 0 1 none).2 = 1 := by decide
theorem selectLoop_eq (env : Environment) (act : Option String)
    (auto : List String) (ol : Option Int) (sorted : List Deployment)
    (l : List Deployment) :
    selectLoop env act auto ol sorted l =
      ({ keptIds := (l.filter
            (fun d => !(deletePred env act auto ol sorted d))).map
            (fun d => d.id),
         deletedIds := (l.filter (deletePred env act auto ol sorted)).map
            (fun d => d.id),
         skippedProtectedIds := (l.filter (isProtected env act)).map
            (fun d => d.id),
         skippedUndeletableIds := (l.filter
            (undelPred env act auto ol sorted)).map (fun d => d.id) },
       (l.filter (candPred env act auto)).length) := by
  induction l with
  | nil => rfl
  | cons d rest ih =>
    rcases hp : isProtected env act d with _ | _ <;>
      by_cases ha : d.id ∈ auto <;>
      rcases hage : ageKeep ol d with _ | _ <;>
      rcases hbr : branchKeep env sorted d with _ | _ <;>
      simp [selectLoop, ih, hp, ha, hage, hbr, List.filter_cons,
        candPred, deletePred, undelPred]
theorem selectForEnvironment_def (env : Environment)
    (deployments : List Deployment) (act : Option String)
    (mi ma : Nat) (ol : Option Int) :
    selectForEnvironment env deployments act mi ma ol =
      selectLoop env act (windowIds env deployments mi ma) ol
        (sortedEnv env deployments) (sortedEnv env deployments) := rfl
theorem sortedEnv_perm (env : Environment) (deployments : List Deployment) :
    (sortedEnv env deployments).Perm (envFiltered env deployments) :=
  List.perm_insertionSort newerOrSame _
theorem sortedEnv_sorted (env : Environment) (deployments : List Deployment) :
    (sortedEnv env deployments).Sorted newerOrSame :=
  List.sorted_insertionSort newerOrSame _
theorem nodup_ids_envFiltered (env : Environment)
    (deployments : List Deployment)
    (hnd : (deployments.map (fun d => d.id)).Nodup) :
    ((envFiltered env deployments).map (fun d => d.id)).Nodup :=
  ((List.filter_sublist _).map _).nodup hnd
theorem nodup_ids_sortedEnv (env : Environment)
    (deployments : List Deployment)
    (hnd : (deployments.map (fun d => d.id)).Nodup) :
    ((sortedEnv env deployments).map (fun d => d.id)).Nodup :=
  (((sortedEnv_perm env deployments).map _).nodup_iff).2
    (nodup_ids_envFiltered env deployments hnd)
theorem id_inj_of_nodup {l : List Deployment}
    (h : (l.map (fun d => d.id)).Nodup) :
    ∀ a ∈ l, ∀ b ∈ l, a.id = b.id → a = b :=
  List.inj_on_of_nodup_map h
theorem filter_append_split (p : Deployment → Bool) (t u : List Deployment)
    (ht : ∀ d ∈ t, p d = true) (hu : ∀ d ∈ u, p d = false) :
    (t ++ u).filter p = t ∧
    (t ++ u).filter (fun d => !(p d)) = u := by
  constructor
  · rw [List.filter_append, List.filter_eq_self.2 ht,
      List.filter_eq_nil_iff.2 (by intro d hd; simp [hu d hd]),
      List.append_nil]
  · rw [List.filter_append,
      List.filter_eq_nil_iff.2 (by intro d hd; simp [ht d hd]),
      List.filter_eq_self.2 (by intro d hd; simp [hu d hd]),
      List.nil_append]
theorem filter_mem_take_ids (l : List Deployment) (k : Nat)
    (h : (l.map (fun d => d.id)).Nodup) :
    l.filter (fun d => decide (d.id ∈ (l.take k).map (fun x => x.id)))
        = l.take k ∧
    l.filter (fun d => !(decide (d.id ∈ (l.take k).map (fun x => x.id))))
        = l.drop k := by
  have hsplit : l.take k ++ l.drop k = l := List.take_append_drop k l
  have hdisj : ∀ d ∈ l.drop k, d.id ∉ (l.take k).map (fun x => x.id) := by
    intro d hd hmem
    have hnd : ((l.take k).map (fun x => x.id) ++
        (l.drop k).map (fun x => x.id)).Nodup := by
      rw [← List.map_append, hsplit]; exact h
    exact (List.nodup_append.1 hnd).2.2 hmem
      (List.mem_map_of_mem (fun x => x.id) hd)
  have key := filter_append_split
    (fun d => decide (d.id ∈ (l.take k).map (fun x => x.id)))
    (l.take k) (l.drop k)
    (by intro d hd; simpa using List.mem_map_of_mem (fun x => x.id) hd)
    (by intro d hd; simpa using hdisj d hd)
  rw [hsplit] at key
  exact key
/-- C1: for every environment, every deployment list with pairwise-distinct
ids, and all parameter values, the bucket of `selectForEnvironment`
partitions the env-filtered input: kept and deleted ids together are exactly
the ids of the records whose environment equals `env`, kept and deleted are
disjoint, and both skipped lists are subsets of the kept list. -/
theorem select_partition (env : Environment) (deployments : List Deployment)
    (act : Option String) (mi ma : Nat) (ol : Option Int)
    (hnd : (deployments.map (fun d => d.id)).Nodup) :
    (∀ s : String,
      (s ∈ (selectForEnvironment env deployments act mi ma ol).1.keptIds ∨
       s ∈ (selectForEnvironment env deployments act mi ma ol).1.deletedIds)
        ↔ s ∈ (deployments.filter
            (fun d => decide (d.environment = env))).map (fun d => d.id)) ∧
    (∀ s : String,
      s ∈ (selectForEnvironment env deployments act mi ma ol).1.keptIds →
      s ∉ (selectForEnvironment env deployments act mi ma ol).1.deletedIds) ∧
    (∀ s : String,
      s ∈ (selectForEnvironment env deployments
            act mi ma ol).1.skippedProtectedIds →
      s ∈ (selectForEnvironment env deployments act mi ma ol).1.keptIds) ∧
    (∀ s : String,
      s ∈ (selectForEnvironment env deployments
            act mi ma ol).1.skippedUndeletableIds →
      s ∈ (selectForEnvironment env deployments act mi ma ol).1.keptIds) := by
  have hperm := sortedEnv_perm env deployments
  have hndL := nodup_ids_sortedEnv env deployments hnd
  simp only [selectForEnvironment_def, selectLoop_eq]
  refine ⟨?_, ?_, ?_, ?_⟩
  · intro s
    simp only [List.mem_map, List.mem_filter]
    constructor
    · rintro (⟨d, ⟨hdL, _⟩, rfl⟩ | ⟨d, ⟨hdL, _⟩, rfl⟩) <;>
        exact ⟨d, List.mem_filter.1 (hperm.mem_iff.1 hdL), rfl⟩
    · rintro ⟨d, hd, rfl⟩
      have hdL : d ∈ sortedEnv env deployments :=
        hperm.mem_iff.2 (List.mem_filter.2 hd)
      by_cases hdel : deletePred env act (windowIds env deployments mi ma) ol
          (sortedEnv env deployments) d = true
      · exact Or.inr ⟨d, ⟨hdL, hdel⟩, rfl⟩
      · exact Or.inl ⟨d, ⟨hdL, by simp [hdel]⟩, rfl⟩
  · intro s hk hd
    simp only [List.mem_map, List.mem_filter] at hk hd
    obtain ⟨d, ⟨hdL, hdk⟩, rfl⟩ := hk
    obtain ⟨d', ⟨hdL', hdd⟩, hid⟩ := hd
    have : d' = d := id_inj_of_nodup hndL d' hdL' d hdL hid
    subst this
    simp [hdd] at hdk
  · intro s hs
    simp only [List.mem_map, List.mem_filter] at hs ⊢
    obtain ⟨d, ⟨hdL, hp⟩, rfl⟩ := hs
    exact ⟨d, ⟨hdL, by simp [deletePred, candPred, hp]⟩, rfl⟩
  · intro s hs
    simp only [List.mem_map, List.mem_filter] at hs ⊢
    obtain ⟨d, ⟨hdL, hu⟩, rfl⟩ := hs
    refine ⟨d, ⟨hdL, ?_⟩, rfl⟩
    simp only [undelPred, Bool.and_eq_true] at hu
    simp [deletePred, hu.1.1, hu.1.2, hu.2]
theorem select_partition_witness :
    (([prodDep "a" 2, prodDep "b" 1].map (fun d => d.id)).Nodup) ∧
    (("b" ∈ (selectForEnvironment Environment.production
        [prodDep "a" 2, prodDep "b" 1] none 0 1 none).1.keptIds ∨
      "b" ∈ (selectForEnvironment Environment.production
        [prodDep "a" 2, prodDep "b" 1] none 0 1 none).1.deletedIds) ↔
      "b" ∈ ([prodDep "a" 2, prodDep "b" 1].filter
        (fun d => decide (d.environment = Environment.production))).map
        (fun d => d.id)) :=
  ⟨by decide,
   (select_partition Environment.production [prodDep "a" 2, prodDep "b" 1]
      none 0 1 none (by decide)).1 "b"⟩
/-- C2: for an environment whose records are neither protected nor subject
to any branch-latest exemption, with no age cutoff supplied, the engine
keeps exactly the newest `min(N, keepCut)` records of the environment
(`keepCut = max(minToKeep, maxToKeep)`) and places all remaining records in
`deletedIds`. -/
theorem select_window (env : Environment) (deployments : List Deployment)
    (act : Option String) (mi ma : Nat)
    (hnd : (deployments.map (fun d => d.id)).Nodup)
    (hprot : ∀ d ∈ envFiltered env deployments,
      isProtected env act d = false)
    (hbr : ∀ d ∈ envFiltered env deployments,
      branchKeep env (sortedEnv env deployments) d = false) :
    (selectForEnvironment env deployments act mi ma none).1.keptIds
        = ((sortedEnv env deployments).take (max ma mi)).map (fun d => d.id) ∧
    (selectForEnvironment env deployments act mi ma none).1.deletedIds
        = ((sortedEnv env deployments).drop (max ma mi)).map (fun d => d.id) ∧
    (selectForEnvironment env deployments act mi ma none).1.keptIds.length
        = min (envFiltered env deployments).length (max ma mi) := by
  have hperm := sortedEnv_perm env deployments
  have hndL := nodup_ids_sortedEnv env deployments hnd
  have hdel : ∀ d ∈ sortedEnv env deployments,
      deletePred env act (windowIds env deployments mi ma) none
        (sortedEnv env deployments) d
      = !(decide (d.id ∈ ((sortedEnv env deployments).take
          (max ma mi)).map (fun x => x.id))) := by
    intro d hd
    have hd' := hperm.mem_iff.1 hd
    simp [deletePred, candPred, ageKeep, hprot d hd', hbr d hd', windowIds]
  have hkeep : ∀ d ∈ sortedEnv env deployments,
      (!(deletePred env act (windowIds env deployments mi ma) none
        (sortedEnv env deployments) d))
      = decide (d.id ∈ ((sortedEnv env deployments).take
          (max ma mi)).map (fun x => x.id)) := by
    intro d hd
    simp [hdel d hd]
  have hsplit := filter_mem_take_ids (sortedEnv env deployments)
    (max ma mi) hndL
  simp only [selectForEnvironment_def, selectLoop_eq]
  refine ⟨?_, ?_, ?_⟩
  · rw [List.filter_congr hkeep, hsplit.1]
  · rw [List.filter_congr hdel, hsplit.2]
  · rw [List.filter_congr hkeep, hsplit.1, List.length_map,
      List.length_take, hperm.length_eq, Nat.min_comm]
theorem select_window_witness :
    (([prodDep "a" 3, prodDep "b" 2, prodDep "c" 1].map
        (fun d => d.id)).Nodup) ∧
    (selectForEnvironment Environment.production
        [prodDep "a" 3, prodDep "b" 2, prodDep "c" 1]
        none 1 2 none).1.keptIds
      = ((sortedEnv Environment.production
          [prodDep "a" 3, prodDep "b" 2, prodDep "c" 1]).take
          (max 2 1)).map (fun d => d.id) :=
  ⟨by decide,
   (select_window Environment.production
      [prodDep "a" 3, prodDep "b" 2, prodDep "c" 1] none 1 2
      (by decide) (by decide) (by decide)).1⟩
/-- C5: `consideredCount` equals the number of env-filtered records that are
neither protected nor inside the auto-keep window of the newest
`keepCut = max(minToKeep, maxToKeep)` records — for every age cutoff and
for every input, i.e. independently of the age and branch-latest exemptions
(records later kept by those exemptions are still counted). -/
theorem select_consideredCount (env : Environment)
    (deployments : List Deployment) (act : Option String) (mi ma : Nat)
    (ol : Option Int) :
    (selectForEnvironment env deployments act mi ma ol).2 =
      ((envFiltered env deployments).filter
        (fun d => !(isProtected env act d) &&
          !(decide (d.id ∈ windowIds env deployments mi ma)))).length := by
  simp only [selectForEnvironment_def, selectLoop_eq]
  have hperm := sortedEnv_perm env deployments
  calc ((sortedEnv env deployments).filter
        (candPred env act (windowIds env deployments mi ma))).length
      = ((envFiltered env deployments).filter
        (candPred env act (windowIds env deployments mi ma))).length :=
        (hperm.filter _).length_eq
    _ = _ := rfl
theorem isProtected_iff (env : Environment) (act : Option String)
    (d : Deployment) :
    isProtected env act d = true ↔
      ((env = Environment.production ∧
        ∃ p, act = some p ∧ p ≠ "" ∧ d.id = p) ∨
       (∃ al, d.aliases = some al ∧ al ≠ [])) := by
  constructor
  · intro h
    simp only [isProtected, Bool.or_eq_true, Bool.and_eq_true,
      decide_eq_true_eq] at h
    rcases h with ⟨henv, hmatch⟩ | hal
    · left
      refine ⟨henv, ?_⟩
      cases hact : act with
      | none => rw [hact] at hmatch; simp at hmatch
      | some p =>
        rw [hact] at hmatch
        simp only [Bool.and_eq_true, Bool.not_eq_true',
          decide_eq_false_iff_not, decide_eq_true_eq] at hmatch
        exact ⟨p, rfl, hmatch.1, hmatch.2⟩
    · right
      unfold hasAliases at hal
      cases hal' : d.aliases with
      | none => rw [hal'] at hal; simp at hal
      | some l =>
        rw [hal'] at hal
        simp only [decide_eq_true_eq] at hal
        exact ⟨l, rfl, List.length_pos.1 hal⟩
  · intro h
    rcases h with ⟨henv, p, hp, hpne, hid⟩ | ⟨al, hal, halne⟩
    · simp only [isProtected, Bool.or_eq_true, Bool.and_eq_true,
        decide_eq_true_eq]
      left
      refine ⟨henv, ?_⟩
      rw [hp]
      simp [hpne, hid]
    · simp only [isProtected, Bool.or_eq_true]
      right
      unfold hasAliases
      rw [hal]
      simp [List.length_pos, halne]
theorem select_protected_cex :
    (selectForEnvironment Environment.production
        [{ id := "", created_on := 0,
           environment := Environment.production }]
        (some "") 0 0 none).1.skippedProtectedIds = [] ∧
    (selectForEnvironment Environment.production
        [{ id := "", created_on := 0,
           environment := Environment.production }]
        (some "") 0 0 none).1.deletedIds = [""] := by decide
/-- C3 (amended): a record of the env-filtered list is protected iff (env is
production AND activeProductionId is present as a NON-EMPTY string AND the
record's id equals it) OR the record has at least one alias; every protected
record appears both in `keptIds` and in `skippedProtectedIds` regardless of
its age or position (including when keepCut = 0), and every id in
`skippedProtectedIds` belongs to a protected record of the environment. -/
theorem select_protected (env : Environment) (deployments : List Deployment)
    (act : Option String) (mi ma : Nat) (ol : Option Int) :
    (∀ d ∈ envFiltered env deployments,
      ((env = Environment.production ∧
        ∃ p, act = some p ∧ p ≠ "" ∧ d.id = p) ∨
       (∃ al, d.aliases = some al ∧ al ≠ [])) →
      d.id ∈ (selectForEnvironment env deployments act mi ma ol).1.keptIds ∧
      d.id ∈ (selectForEnvironment env deployments
        act mi ma ol).1.skippedProtectedIds) ∧
    (∀ s ∈ (selectForEnvironment env deployments
        act mi ma ol).1.skippedProtectedIds,
      ∃ d ∈ envFiltered env deployments, d.id = s ∧
        ((env = Environment.production ∧
          ∃ p, act = some p ∧ p ≠ "" ∧ d.id = p) ∨
         (∃ al, d.aliases = some al ∧ al ≠ []))) := by
  have hperm := sortedEnv_perm env deployments
  simp only [selectForEnvironment_def, selectLoop_eq]
  constructor
  · intro d hd hspec
    have hprot : isProtected env act d = true := (isProtected_iff _ _ _).2 hspec
    have hdL : d ∈ sortedEnv env deployments := hperm.mem_iff.2 hd
    constructor
    · exact List.mem_map.2 ⟨d, List.mem_filter.2
        ⟨hdL, by simp [deletePred, candPred, hprot]⟩, rfl⟩
    · exact List.mem_map.2 ⟨d, List.mem_filter.2 ⟨hdL, hprot⟩, rfl⟩
  · intro s hs
    obtain ⟨d, hd, rfl⟩ := List.mem_map.1 hs
    have hd' := List.mem_filter.1 hd
    exact ⟨d, hperm.mem_iff.1 hd'.1, rfl, (isProtected_iff _ _ _).1 hd'.2⟩
theorem select_protected_witness :
    ({ id := "x", created_on := 0, environment := Environment.production,
       aliases := some ["al.example.com"] } : Deployment) ∈
      envFiltered Environment.production
        [{ id := "x", created_on := 0,
           environment := Environment.production,
           aliases := some ["al.example.com"] }] ∧
    ("x" ∈ (selectForEnvironment Environment.production
        [{ id := "x", created_on := 0,
           environment := Environment.production,
           aliases := some ["al.example.com"] }]
        none 0 0 none).1.keptIds ∧
     "x" ∈ (selectForEnvironment Environment.production
        [{ id := "x", created_on := 0,
           environment := Environment.production,
           aliases := some ["al.example.com"] }]
        none 0 0 none).1.skippedProtectedIds) :=
  ⟨by decide,
   (select_protected Environment.production
      [{ id := "x", created_on := 0,
         environment := Environment.production,
         aliases := some ["al.example.com"] }] none 0 0 none).1
      { id := "x", created_on := 0,
        environment := Environment.production,
        aliases := some ["al.example.com"] }
      (by decide) (Or.inr ⟨["al.example.com"], rfl, by decide⟩)⟩
theorem select_age_cex :
    (selectForEnvironment Environment.production [prodDep "d1" 1000]
        none 0 0 (some 1000)).1.deletedIds = ["d1"] ∧
    (selectForEnvironment Environment.production [prodDep "d1" 1000]
        none 0 0 (some 1000)).1.keptIds = [] := by decide
/-- C4 (amended): when `olderThanMs` is supplied, a record is placed in
`deletedIds` only if its `created_on` is older than or EQUAL TO the cutoff
(`createdMs <= olderThanMs`); a non-protected candidate beyond the retention
window whose `created_on` is strictly newer than the cutoff is kept and not
deleted. -/
theorem select_age (env : Environment) (deployments : List Deployment)
    (act : Option String) (mi ma : Nat) (t : Int)
    (hnd : (deployments.map (fun d => d.id)).Nodup) :
    (∀ d ∈ sortedEnv env deployments,
      d.id ∈ (selectForEnvironment env deployments
        act mi ma (some t)).1.deletedIds →
      d.created_on ≤ t) ∧
    (∀ d ∈ sortedEnv env deployments,
      isProtected env act d = false →
      d.id ∉ windowIds env deployments mi ma →
      t < d.created_on →
      d.id ∈ (selectForEnvironment env deployments
        act mi ma (some t)).1.keptIds ∧
      d.id ∉ (selectForEnvironment env deployments
        act mi ma (some t)).1.deletedIds) := by
  have hndL := nodup_ids_sortedEnv env deployments hnd
  simp only [selectForEnvironment_def, selectLoop_eq]
  constructor
  · intro d hd hmem
    obtain ⟨d', hd', hid⟩ := List.mem_map.1 hmem
    have hf := List.mem_filter.1 hd'
    have : d' = d := id_inj_of_nodup hndL d' hf.1 d hd hid
    subst this
    have := hf.2
    simp only [deletePred, Bool.and_eq_true, Bool.not_eq_true'] at this
    have hage := this.1.2
    simp only [ageKeep, decide_eq_false_iff_not, not_lt] at hage
    exact hage
  · intro d hd hp hw ht
    have hage : ageKeep (some t) d = true := by
      simp [ageKeep, ht]
    have hdel : deletePred env act (windowIds env deployments mi ma) (some t)
        (sortedEnv env deployments) d = false := by
      simp [deletePred, hage]
    constructor
    · exact List.mem_map.2 ⟨d, List.mem_filter.2 ⟨hd, by simp [hdel]⟩, rfl⟩
    · intro hmem
      obtain ⟨d', hd', hid⟩ := List.mem_map.1 hmem
      have hf := List.mem_filter.1 hd'
      have : d' = d := id_inj_of_nodup hndL d' hf.1 d hd hid
      subst this
      rw [hdel] at hf
      exact absurd hf.2 (by simp)
theorem select_age_witness :
    (([prodDep "a" 5, prodDep "b" 1].map (fun d => d.id)).Nodup) ∧
    (prodDep "a" 5 ∈ sortedEnv Environment.production
        [prodDep "a" 5, prodDep "b" 1]) ∧
    ("a" ∈ (selectForEnvironment Environment.production
        [prodDep "a" 5, prodDep "b" 1] none 0 0 (some 3)).1.keptIds ∧
     "a" ∉ (selectForEnvironment Environment.production
        [prodDep "a" 5, prodDep "b" 1] none 0 0 (some 3)).1.deletedIds) :=
  ⟨by decide, by decide,
   (select_age Environment.production [prodDep "a" 5, prodDep "b" 1]
      none 0 0 3 (by decide)).2 (prodDep "a" 5) (by decide)
      (by decide) (by decide) (by decide)⟩
theorem find?_branch_of_newest {l : List Deployment} {b : String}
    {d : Deployment} (hs : l.Sorted newerOrSame) (hd : d ∈ l)
    (hpd : branchOf d = some b)
    (hnewest : ∀ x ∈ l, branchOf x = some b →
      x = d ∨ x.created_on < d.created_on) :
    l.find? (fun x => decide (branchOf x = some b)) = some d := by
  induction l with
  | nil => cases hd
  | cons x xs ih =>
    by_cases hx : branchOf x = some b
    · have hfind : (x :: xs).find?
          (fun y => decide (branchOf y = some b)) = some x :=
        List.find?_cons_of_pos _ (by simp [hx])
      rcases hnewest x (List.mem_cons_self x xs) hx with rfl | hlt
      · exact hfind
      · rcases List.mem_cons.1 hd with rfl | hdxs
        · exact hfind
        · have hle : newerOrSame x d :=
            (List.pairwise_cons.1 hs).1 d hdxs
          exact absurd hlt (not_lt.2 hle)
    · have hdxs : d ∈ xs := by
        rcases List.mem_cons.1 hd with rfl | h
        · exact absurd hpd hx
        · exact h
      rw [List.find?_cons_of_neg _ (by simp [hx])]
      exact ih hs.of_cons hdxs
        (fun y hy hby => hnewest y (List.mem_cons_of_mem x hy) hby)
theorem select_branch_cex :
    (selectForEnvironment Environment.preview
        [prevDep "a" 10 (some "b"), prevDep "c" 5 (some "b")]
        none 1 1 none).1.skippedUndeletableIds = [] ∧
    "a" ∈ (selectForEnvironment Environment.preview
        [prevDep "a" 10 (some "b"), prevDep "c" 5 (some "b")]
        none 1 1 none).1.keptIds := by decide
/-- C6 (amended): in the preview environment the strictly newest record of
each non-empty branch value is always kept and never deleted; it is tagged
in `skippedUndeletableIds` exactly when it reaches the candidate stage of
the scan (not protected, beyond the auto-keep window, and not already kept
by the age exemption); and every id tagged in `skippedUndeletableIds`
belongs to a record with a non-empty branch that is the first record of
that branch in the newest-first scan order, so a record with no branch
information is never exempted by this rule. -/
theorem select_branchLatest (deployments : List Deployment)
    (act : Option String) (mi ma : Nat) (ol : Option Int)
    (hnd : (deployments.map (fun d => d.id)).Nodup) :
    (∀ d ∈ sortedEnv Environment.preview deployments, ∀ b : String,
      branchOf d = some b → b ≠ "" →
      (∀ x ∈ sortedEnv Environment.preview deployments,
        branchOf x = some b → x = d ∨ x.created_on < d.created_on) →
      (d.id ∈ (selectForEnvironment Environment.preview deployments
          act mi ma ol).1.keptIds ∧
       d.id ∉ (selectForEnvironment Environment.preview deployments
          act mi ma ol).1.deletedIds ∧
       (isProtected Environment.preview act d = false →
        d.id ∉ windowIds Environment.preview deployments mi ma →
        ageKeep ol d = false →
        d.id ∈ (selectForEnvironment Environment.preview deployments
          act mi ma ol).1.skippedUndeletableIds))) ∧
    (∀ s ∈ (selectForEnvironment Environment.preview deployments
        act mi ma ol).1.skippedUndeletableIds,
      ∃ d ∈ sortedEnv Environment.preview deployments, d.id = s ∧
        isProtected Environment.preview act d = false ∧
        d.id ∉ windowIds Environment.preview deployments mi ma ∧
        ageKeep ol d = false ∧
        ∃ b : String, branchOf d = some b ∧ b ≠ "" ∧
          (sortedEnv Environment.preview deployments).find?
            (fun x => decide (branchOf x = some b)) = some d) := by
  have hndL := nodup_ids_sortedEnv Environment.preview deployments hnd
  have hsorted := sortedEnv_sorted Environment.preview deployments
  simp only [selectForEnvironment_def, selectLoop_eq]
  constructor
  · intro d hd b hb hbne hnewest
    have hfind := find?_branch_of_newest hsorted hd hb hnewest
    have hbk : branchKeep Environment.preview
        (sortedEnv Environment.preview deployments) d = true := by
      simp [branchKeep, hb, hbne, hfind]
    have hdel : deletePred Environment.preview act
        (windowIds Environment.preview deployments mi ma) ol
        (sortedEnv Environment.preview deployments) d = false := by
      simp [deletePred, hbk]
    refine ⟨?_, ?_, ?_⟩
    · exact List.mem_map.2 ⟨d, List.mem_filter.2 ⟨hd, by simp [hdel]⟩, rfl⟩
    · intro hmem
      obtain ⟨d', hd', hid⟩ := List.mem_map.1 hmem
      have hf := List.mem_filter.1 hd'
      have : d' = d := id_inj_of_nodup hndL d' hf.1 d hd hid
      subst this
      rw [hdel] at hf
      exact absurd hf.2 (by simp)
    · intro hp hw hage
      have hu : undelPred Environment.preview act
          (windowIds Environment.preview deployments mi ma) ol
          (sortedEnv Environment.preview deployments) d = true := by
        simp [undelPred, candPred, hp, hw, hage, hbk]
      exact List.mem_map.2 ⟨d, List.mem_filter.2 ⟨hd, hu⟩, rfl⟩
  · intro s hs
    obtain ⟨d, hd, rfl⟩ := List.mem_map.1 hs
    have hf := List.mem_filter.1 hd
    have hu := hf.2
    simp only [undelPred, Bool.and_eq_true] at hu
    have hcand := hu.1.1
    simp only [candPred, Bool.and_eq_true, Bool.not_eq_true',
      decide_eq_false_iff_not] at hcand
    have hagef : ageKeep ol d = false := by
      have := hu.1.2
      simpa using this
    have hbk := hu.2
    simp only [branchKeep, Bool.and_eq_true, decide_eq_true_eq] at hbk
    rcases hbv : branchOf d with _ | b
    · rw [hbv] at hbk
      exact absurd hbk.2 (by simp)
    · rw [hbv] at hbk
      have hbk2 := hbk.2
      simp only [Bool.and_eq_true, Bool.not_eq_true',
        decide_eq_false_iff_not] at hbk2
      rcases hfind : (sortedEnv Environment.preview deployments).find?
          (fun x => decide (branchOf x = some b)) with _ | newest
      · rw [hfind] at hbk2
        exact absurd hbk2.2 (by simp)
      · rw [hfind] at hbk2
        have hnid : newest.id = d.id := by
          have := hbk2.2
          simpa using this
        have hnmem : newest ∈ sortedEnv Environment.preview deployments :=
          List.mem_of_find?_eq_some hfind
        have : newest = d := id_inj_of_nodup hndL newest hnmem d hf.1 hnid
        subst this
        exact ⟨newest, hf.1, rfl, hcand.1, hcand.2, hagef,
          b, hbv, hbk2.1, hfind⟩
theorem select_branchLatest_witness :
    (([prevDep "e" 20 (some "feat1"), prevDep "f" 2 (some "feat1"),
       prevDep "g" 3 (some "feat2")].map (fun d => d.id)).Nodup) ∧
    ("e" ∈ (selectForEnvironment Environment.preview
        [prevDep "e" 20 (some "feat1"), prevDep "f" 2 (some "feat1"),
         prevDep "g" 3 (some "feat2")] none 0 0 none).1.keptIds ∧
     "e" ∉ (selectForEnvironment Environment.preview
        [prevDep "e" 20 (some "feat1"), prevDep "f" 2 (some "feat1"),
         prevDep "g" 3 (some "feat2")] none 0 0 none).1.deletedIds ∧
     "e" ∈ (selectForEnvironment Environment.preview
        [prevDep "e" 20 (some "feat1"), prevDep "f" 2 (some "feat1"),
         prevDep "g" 3 (some "feat2")]
        none 0 0 none).1.skippedUndeletableIds) := by
  have h := (select_branchLatest
    [prevDep "e" 20 (some "feat1"), prevDep "f" 2 (some "feat1"),
     prevDep "g" 3 (some "feat2")] none 0 0 none (by decide)).1
    (prevDep "e" 20 (some "feat1")) (by decide) "feat1" (by decide)
    (by decide) (by decide)
  exact ⟨by decide, h.1, h.2.1, h.2.2 (by decide) (by decide) (by decide)⟩
theorem detectActiveProduction_bug :
    detectActiveProduction
      [{ id := "p-old", created_on := 100,
         environment := Environment.production,
         latest_stage := some { status := some "success" } },
       { id := "p-new-failed", created_on := 200,
         environment := Environment.production,
         latest_stage := some { status := some "failure" } }]
      = some "p-new-failed" := by decide
example : parseStatusFromMessage "delete failed (404) not found" = 404 := by
  decide
example : parseStatusFromMessage "no status here" = 0 := by decide
theorem deletionPhase_eq (env : Environment)
    (f : String → Option String) (l : List String) :
    deletionPhase env f l =
      (l, l.filterMap (fun i => (f i).map (fun msg =>
        ({ deploymentId := i, status := parseStatusFromMessage msg,
           message := msg, environment := env } : DeletionError)))) := by
  induction l with
  | nil => rfl
  | cons i rest ih =>
    cases hf : f i <;>
      simp [deletionPhase, ih, hf, List.filterMap_cons]
theorem mergeAliasLoop_deletedIds (pIds : List String)
    (l : List Deployment) (b : SelectionBucket) :
    (mergeAliasLoop pIds b l).deletedIds = b.deletedIds := by
  induction l generalizing b with
  | nil => rfl
  | cons d rest ih =>
    rw [mergeAliasLoop, ih]
    split <;> rfl
theorem mergeAliasProtection_deletedIds (deployments : List Deployment)
    (b : SelectionBucket) :
    (mergeAliasProtection deployments b).deletedIds = b.deletedIds :=
  mergeAliasLoop_deletedIds _ _ _
/-- C9: in the deletion phase every failure is caught independently and
recorded with the deployment id, the status parsed from the message, the
message, and the environment; all scheduled deletions are attempted (no
failure aborts the batch); the run-level error list aggregates the
per-environment errors; and the run fails exactly when at least one
deletion error was recorded and `failOnError` is true. -/
theorem run_errorHandling (inputs : Inputs)
    (deploymentsOf : Environment → List Deployment)
    (act : Option String)
    (delOut : Environment → String → Option String)
    (hdr : inputs.dryRun = false) :
    (∀ p ∈ (run inputs deploymentsOf act delOut).results,
      p.2.attempted = p.2.toDelete ∧
      p.2.errors = p.2.toDelete.filterMap (fun i =>
        (delOut p.1 i).map (fun msg =>
          ({ deploymentId := i, status := parseStatusFromMessage msg,
             message := msg, environment := p.1 } : DeletionError)))) ∧
    (run inputs deploymentsOf act delOut).errors =
      ((run inputs deploymentsOf act delOut).results).flatMap
        (fun p => p.2.errors) ∧
    ((run inputs deploymentsOf act delOut).failed = true ↔
      ((run inputs deploymentsOf act delOut).errors ≠ [] ∧
       inputs.failOnError = true)) := by
  refine ⟨?_, rfl, ?_⟩
  · intro p hp
    simp only [run, List.mem_map] at hp
    obtain ⟨e, _, rfl⟩ := hp
    simp only [processEnv, hdr]
    rw [deletionPhase_eq]
    exact ⟨rfl, rfl⟩
  · show (decide (0 < (run inputs deploymentsOf act delOut).errors.length)
        && inputs.failOnError) = true ↔ _
    rw [Bool.and_eq_true, decide_eq_true_eq]
    constructor
    · rintro ⟨hlen, hfl⟩
      exact ⟨List.ne_nil_of_length_pos hlen, hfl⟩
    · rintro ⟨hne, hfl⟩
      exact ⟨List.length_pos.2 hne, hfl⟩
theorem run_errorHandling_witness :
    (sampleCfg.dryRun = false) ∧
    ((run sampleCfg (fun _ => [prodDep "a" 2, prodDep "b" 1])
        none sampleOut).failed = true ↔
     ((run sampleCfg (fun _ => [prodDep "a" 2, prodDep "b" 1])
        none sampleOut).errors ≠ [] ∧
      sampleCfg.failOnError = true)) :=
  ⟨rfl,
   (run_errorHandling sampleCfg (fun _ => [prodDep "a" 2, prodDep "b" 1])
      none sampleOut rfl).2.2⟩
/-- C7 (code bug): with environment selector `all` and
`maxDeletesPerRun = 1`, the orchestrator attempts one deletion per
environment — two deletions in the whole run — because the
`slice(0, maxDeletesPerRun)` truncation is applied separately inside each
environment iteration, not once per run. -/
theorem run_capPerEnvironment_bug :
    ({ environment := EnvSelector.all, minToKeep := 0, maxToKeep := 0,
       olderThanMs := none, dryRun := false, maxDeletesPerRun := 1,
       failOnError := true } : Inputs).maxDeletesPerRun = 1 ∧
    (run
      { environment := EnvSelector.all, minToKeep := 0, maxToKeep := 0,
        olderThanMs := none, dryRun := false, maxDeletesPerRun := 1,
        failOnError := true }
      (fun e =>
        match e with
        | Environment.production => [prodDep "p1" 2, prodDep "p2" 1]
        | Environment.preview => [prevDep "q1" 2 none, prevDep "q2" 1 none])
      none (fun _ _ => none)).attempted
      = [(Environment.production, "p1"), (Environment.preview, "q1")] := by
  exact ⟨rfl, by decide⟩
theorem createdOf_eq {l : List Deployment}
    (hnd : (l.map (fun d => d.id)).Nodup) {d : Deployment} (hd : d ∈ l) :
    createdOf l d.id = d.created_on := by
  have hex : (l.find? (fun x => decide (x.id = d.id))).isSome :=
    List.find?_isSome.2 ⟨d, hd, by simp⟩
  obtain ⟨d', hd'⟩ := Option.isSome_iff_exists.1 hex
  have hmem := List.mem_of_find?_eq_some hd'
  have hpred := List.find?_some hd'
  simp only [decide_eq_true_eq] at hpred
  have heq : d' = d := id_inj_of_nodup hnd d' hmem d hd hpred
  subst heq
  simp [createdOf, hd']
/-- C10: `deletedIds` is emitted in the order of the single newest-first
scan, so its records are in newest-to-oldest `created_on` order; the
orchestrator truncates it with `slice(0, maxDeletesPerRun)` before any
delete call, attempts exactly that prefix, and every deletion candidate
beyond the cap (the oldest ones) is not attempted anywhere in the run. -/
theorem run_deletesNewestFirst (inputs : Inputs)
    (deploymentsOf : Environment → List Deployment)
    (act : Option String)
    (delOut : Environment → String → Option String)
    (hdr : inputs.dryRun = false)
    (hnd : ∀ e : Environment,
      ((deploymentsOf e).map (fun d => d.id)).Nodup) :
    ∀ p ∈ (run inputs deploymentsOf act delOut).results,
      (((selectForEnvironment p.1 (deploymentsOf p.1) act inputs.minToKeep
          inputs.maxToKeep inputs.olderThanMs).1.deletedIds).map
          (createdOf (deploymentsOf p.1))).Pairwise (fun x y => y ≤ x) ∧
      p.2.toDelete = ((selectForEnvironment p.1 (deploymentsOf p.1) act
          inputs.minToKeep inputs.maxToKeep
          inputs.olderThanMs).1.deletedIds).take inputs.maxDeletesPerRun ∧
      p.2.attempted = p.2.toDelete ∧
      (∀ s ∈ ((selectForEnvironment p.1 (deploymentsOf p.1) act
          inputs.minToKeep inputs.maxToKeep
          inputs.olderThanMs).1.deletedIds).drop inputs.maxDeletesPerRun,
        (∀ t ∈ ((selectForEnvironment p.1 (deploymentsOf p.1) act
            inputs.minToKeep inputs.maxToKeep
            inputs.olderThanMs).1.deletedIds).take inputs.maxDeletesPerRun,
          createdOf (deploymentsOf p.1) s ≤ createdOf (deploymentsOf p.1) t) ∧
        (p.1, s) ∉ (run inputs deploymentsOf act delOut).attempted) := by
  intro p hp
  simp only [run, List.mem_map] at hp
  obtain ⟨e, he, rfl⟩ := hp
  have hndD := hnd e
  have hndL := nodup_ids_sortedEnv e (deploymentsOf e) hndD
  have hdel : (selectForEnvironment e (deploymentsOf e) act inputs.minToKeep
      inputs.maxToKeep inputs.olderThanMs).1.deletedIds =
      ((sortedEnv e (deploymentsOf e)).filter
        (deletePred e act (windowIds e (deploymentsOf e) inputs.minToKeep
          inputs.maxToKeep) inputs.olderThanMs
          (sortedEnv e (deploymentsOf e)))).map (fun d => d.id) := by
    simp only [selectForEnvironment_def, selectLoop_eq]
  have hFmem : ∀ d ∈ (sortedEnv e (deploymentsOf e)).filter
      (deletePred e act (windowIds e (deploymentsOf e) inputs.minToKeep
        inputs.maxToKeep) inputs.olderThanMs
        (sortedEnv e (deploymentsOf e))), d ∈ deploymentsOf e := by
    intro d hd
    exact (List.mem_filter.1
      ((sortedEnv_perm e (deploymentsOf e)).mem_iff.1
        (List.mem_filter.1 hd).1)).1
  have hFpw : ((sortedEnv e (deploymentsOf e)).filter
      (deletePred e act (windowIds e (deploymentsOf e) inputs.minToKeep
        inputs.maxToKeep) inputs.olderThanMs
        (sortedEnv e (deploymentsOf e)))).Pairwise newerOrSame :=
    (sortedEnv_sorted e (deploymentsOf e)).sublist (List.filter_sublist _)
  have hnddIds : ((selectForEnvironment e (deploymentsOf e) act
      inputs.minToKeep inputs.maxToKeep
      inputs.olderThanMs).1.deletedIds).Nodup := by
    rw [hdel]
    exact ((List.filter_sublist _).map
      (fun d : Deployment => d.id)).nodup hndL
  have hpw : (((selectForEnvironment e (deploymentsOf e) act inputs.minToKeep
      inputs.maxToKeep inputs.olderThanMs).1.deletedIds).map
      (createdOf (deploymentsOf e))).Pairwise (fun x y => y ≤ x) := by
    rw [hdel, List.map_map]
    have hcong : ((sortedEnv e (deploymentsOf e)).filter
        (deletePred e act (windowIds e (deploymentsOf e) inputs.minToKeep
          inputs.maxToKeep) inputs.olderThanMs
          (sortedEnv e (deploymentsOf e)))).map
          (createdOf (deploymentsOf e) ∘ fun d : Deployment => d.id) =
        ((sortedEnv e (deploymentsOf e)).filter
        (deletePred e act (windowIds e (deploymentsOf e) inputs.minToKeep
          inputs.maxToKeep) inputs.olderThanMs
          (sortedEnv e (deploymentsOf e)))).map (fun d => d.created_on) :=
      List.map_congr_left (fun d hd => createdOf_eq hndD (hFmem d hd))
    rw [hcong]
    exact hFpw.map _ (fun a b h => h)
  have htd : (processEnv inputs act delOut e (deploymentsOf e)).toDelete =
      ((selectForEnvironment e (deploymentsOf e) act inputs.minToKeep
        inputs.maxToKeep inputs.olderThanMs).1.deletedIds).take
        inputs.maxDeletesPerRun := by
    simp only [processEnv]
    rw [mergeAliasProtection_deletedIds]
  have hatt : (processEnv inputs act delOut e (deploymentsOf e)).attempted =
      (processEnv inputs act delOut e (deploymentsOf e)).toDelete := by
    simp only [processEnv, hdr]
    rw [deletionPhase_eq]
    simp
  refine ⟨hpw, htd, hatt, ?_⟩
  intro s hs
  constructor
  · intro t ht
    have hsplit := List.take_append_drop inputs.maxDeletesPerRun
      ((selectForEnvironment e (deploymentsOf e) act inputs.minToKeep
        inputs.maxToKeep inputs.olderThanMs).1.deletedIds)
    have hpw2 := hpw
    rw [← hsplit, List.map_append] at hpw2
    exact (List.pairwise_append.1 hpw2).2.2 _
      (List.mem_map_of_mem _ ht) _ (List.mem_map_of_mem _ hs)
  · intro hmem
    simp only [run, List.mem_flatMap, List.mem_map] at hmem
    obtain ⟨q, ⟨e', he', rfl⟩, i, hi, heq⟩ := hmem
    injection heq with he'e his
    have he'e2 : e' = e := he'e
    have his2 : i = s := his
    rw [he'e2, his2] at hi
    have hi2 : s ∈ (processEnv inputs act delOut e
        (deploymentsOf e)).attempted := hi
    rw [hatt, htd] at hi2
    have hsplit := List.take_append_drop inputs.maxDeletesPerRun
      ((selectForEnvironment e (deploymentsOf e) act inputs.minToKeep
        inputs.maxToKeep inputs.olderThanMs).1.deletedIds)
    have hnd2 := hnddIds
    rw [← hsplit] at hnd2
    exact (List.nodup_append.1 hnd2).2.2 hi2 hs
theorem run_deletesNewestFirst_witness :
    (sampleCfgCap1.dryRun = false) ∧
    (((selectForEnvironment Environment.production
        [prodDep "a" 3, prodDep "b" 2, prodDep "c" 1] none
        sampleCfgCap1.minToKeep sampleCfgCap1.maxToKeep
        sampleCfgCap1.olderThanMs).1.deletedIds).map
        (createdOf [prodDep "a" 3, prodDep "b" 2,
          prodDep "c" 1])).Pairwise (fun x y => y ≤ x) :=
  ⟨rfl,
   (run_deletesNewestFirst sampleCfgCap1
      (fun _ => [prodDep "a" 3, prodDep "b" 2, prodDep "c" 1]) none
      (fun _ _ => none) rfl (fun e => by cases e <;> decide)
      (Environment.production,
        processEnv sampleCfgCap1 none (fun _ _ => none)
          Environment.production
          [prodDep "a" 3, prodDep "b" 2, prodDep "c" 1])
      (by decide)).1⟩
